import Mathlib

/-
  Verification development for the pawn-structure evaluation core
  (pawns.c): per-side pawn classification and scoring, the connected
  pawn bonus table, the shelter/storm king safety evaluator, and the
  king safety orchestrator.

  Squares are indexed 0..63 in rank-major order (a1 = 0, b1 = 1, ...,
  h8 = 63); bitboards are embedded as finite sets of squares, and the
  packed midgame/endgame Score of the source as a pair of integers.
-/

namespace Pawns

/-- A chessboard square, index 0..63 in rank-major order (a1 = 0, h8 = 63). -/
abbrev Square := Fin 64

/-- A set of squares: shallow embedding of the 64-bit bitboards of the source. -/
abbrev Bitboard := Finset Square

/-- The two sides. -/
inductive Color where
  | white
  | black
deriving DecidableEq, Repr

/-- The opposite side. -/
def Color.other : Color → Color
  | .white => .black
  | .black => .white

/-- File (0..7) of a square. -/
def fileOf (s : Square) : Nat := s.val % 8

/-- Rank (0..7) of a square. -/
def rankOf (s : Square) : Nat := s.val / 8

/-- Absolute difference of two naturals. -/
def natDist (a b : Nat) : Nat := max (a - b) (b - a)

/-- The square with a given file and rank (arguments taken modulo 8). -/
def mkSq (f r : Nat) : Square := ⟨(r % 8) * 8 + f % 8, by omega⟩

/-- Direction of pawn advance for a side, as a rank delta. -/
def dirUp : Color → Int
  | .white => 1
  | .black => -1

/-- Rank relative to the point of view of a side (0 is the own back rank). -/
def relative_rank (us : Color) (r : Nat) : Nat :=
  match us with
  | .white => r
  | .black => 7 - r

/-- Relative rank of a square from the point of view of a side. -/
def relative_rank_s (us : Color) (s : Square) : Nat := relative_rank us (rankOf s)

/-- Boolean test for a nonempty set (the truth value of a bitboard in C). -/
def bbAny {n : Nat} (b : Finset (Fin n)) : Bool := decide (b ≠ ∅)

/-- Modelled from the spec: mask of the squares of one file (file/rank mask helper
of the external bitboard collaborator). -/
def file_bb (f : Nat) : Bitboard := Finset.univ.filter (fun t => fileOf t = f)

/-- Modelled from the spec: mask of the squares of one rank. -/
def rank_bb (r : Nat) : Bitboard := Finset.univ.filter (fun t => rankOf t = r)

/-- Modelled from the spec: mask of the rank of a square. -/
def rank_bb_s (s : Square) : Bitboard := rank_bb (rankOf s)

/-- Modelled from the spec: mask of the files adjacent to a file. -/
def adjacent_files_bb (f : Nat) : Bitboard :=
  Finset.univ.filter (fun t => natDist (fileOf t) f = 1)

/-- Modelled from the spec: squares strictly ahead of a square on the same file
(forward span of the external bitboard collaborator). -/
def forward_bb (us : Color) (s : Square) : Bitboard :=
  Finset.univ.filter
    (fun t => fileOf t = fileOf s ∧ relative_rank_s us s < relative_rank_s us t)

/-- Modelled from the spec: the passed-pawn corridor of a square — same and
adjacent files, all squares strictly ahead. -/
def passed_pawn_mask (us : Color) (s : Square) : Bitboard :=
  Finset.univ.filter
    (fun t => natDist (fileOf t) (fileOf s) ≤ 1 ∧
      relative_rank_s us s < relative_rank_s us t)

/-- Modelled from the spec: the forward attack cone of a pawn — adjacent files,
all squares strictly ahead. -/
def pawn_attack_span (us : Color) (s : Square) : Bitboard :=
  Finset.univ.filter
    (fun t => natDist (fileOf t) (fileOf s) = 1 ∧
      relative_rank_s us s < relative_rank_s us t)

/-- Modelled from the spec: attack set of a pawn of a side standing on a square. -/
def pawnAttacksBB (us : Color) (s : Square) : Bitboard :=
  Finset.univ.filter
    (fun t => natDist (fileOf t) (fileOf s) = 1 ∧
      relative_rank_s us t = relative_rank_s us s + 1)

/-- Modelled from the spec: squares on ranks strictly ahead of a rank. -/
def in_front_bb (us : Color) (r : Nat) : Bitboard :=
  Finset.univ.filter (fun t => relative_rank us r < relative_rank_s us t)

/-- Modelled from the spec: directional shift of a bitboard; squares pushed off
the board disappear and no file wrap-around occurs. -/
def shiftDelta (df dr : Int) (b : Bitboard) : Bitboard :=
  Finset.univ.filter
    (fun t => ∃ p ∈ b, (fileOf t : Int) = fileOf p + df ∧
      (rankOf t : Int) = rankOf p + dr)

/-- Modelled from the spec: the square of a nonempty bitboard closest to the own
back rank of a side (lsb for White, msb for Black). -/
def backmost_sq (us : Color) (b : Bitboard) : Square :=
  if h : b.Nonempty then
    match us with
    | .white => b.min' h
    | .black => b.max' h
  else 0

/-- Modelled from the spec: the most advanced square of a nonempty bitboard from
the point of view of a side (msb for White, lsb for Black). -/
def frontmost_sq (c : Color) (b : Bitboard) : Square :=
  if h : b.Nonempty then
    match c with
    | .white => b.max' h
    | .black => b.min' h
  else 0

/-- Chebyshev (board) distance between two squares. -/
def chebyshev (a b : Square) : Nat :=
  max (natDist (fileOf a) (fileOf b)) (natDist (rankOf a) (rankOf b))

/-- Modelled from the spec: concentric distance ring bitboards around a square;
ring index d holds the squares at board distance d + 1. -/
def DistanceRingBB (s : Square) (d : Nat) : Bitboard :=
  Finset.univ.filter (fun t => chebyshev s t = d + 1)

/-- The dark squares of the board. -/
def DarkSquares : Bitboard :=
  Finset.univ.filter (fun t => (fileOf t + rankOf t) % 2 = 0)

/-- The light squares of the board. -/
def LightSquares : Bitboard :=
  Finset.univ.filter (fun t => (fileOf t + rankOf t) % 2 = 1)

/-- Modelled from the spec: relative-square mapping — identity for White, a
vertical mirror for Black. -/
def relative_square (us : Color) (s : Square) : Square :=
  match us with
  | .white => s
  | .black => ⟨(7 - s.val / 8) * 8 + s.val % 8, by omega⟩

/-- The square g1. -/
def SQ_G1 : Square := ⟨6, by decide⟩

/-- The square c1. -/
def SQ_C1 : Square := ⟨2, by decide⟩

/-- A paired midgame/endgame value (make_score of the source). -/
structure Score where
  mg : Int
  eg : Int
deriving DecidableEq, Repr

instance : Zero Score := ⟨⟨0, 0⟩⟩
instance : Add Score := ⟨fun a b => ⟨a.mg + b.mg, a.eg + b.eg⟩⟩
instance : Neg Score := ⟨fun a => ⟨-a.mg, -a.eg⟩⟩
instance : Sub Score := ⟨fun a b => ⟨a.mg - b.mg, a.eg - b.eg⟩⟩

/-- make_score of the source. -/
def make_score (mg eg : Int) : Score := ⟨mg, eg⟩

/-- Isolated pawn penalty by opposed flag. -/
def Isolated (opposed : Bool) : Score := if opposed then ⟨30, 27⟩ else ⟨45, 40⟩

/-- Backward pawn penalty by opposed flag. -/
def Backward (opposed : Bool) : Score := if opposed then ⟨41, 19⟩ else ⟨56, 33⟩

/-- Unsupported pawn penalty for pawns which are neither isolated nor backward. -/
def Unsupported : Score := ⟨17, 8⟩

/-- Doubled pawn penalty. -/
def Doubled : Score := ⟨18, 38⟩

/-- Lever bonus by relative rank. -/
def Lever (r : Nat) : Score :=
  [⟨0, 0⟩, ⟨0, 0⟩, ⟨0, 0⟩, ⟨0, 0⟩, ⟨17, 16⟩, ⟨33, 32⟩, ⟨0, 0⟩, ⟨0, 0⟩].getD r 0

/-- The fixed seed sequence of pawn_init. -/
def Seed : List Int := [0, 8, 19, 13, 71, 94, 169, 324]

/-- The connected pawn bonus table by opposed, phalanx, twice supported and rank,
embedded as the function computed by pawn_init (cells outside ranks 1..6 keep
the zero initialization of the C global). The shift by the opposed flag of the
source acts on a nonnegative value and is written as a halving. -/
def Connected (opposed phalanx apex : Bool) (r : Nat) : Score :=
  if 1 ≤ r ∧ r ≤ 6 then
    let v0 : Int :=
      Seed.getD r 0 + (if phalanx then (Seed.getD (r + 1) 0 - Seed.getD r 0) / 2 else 0)
    let v1 : Int := if opposed then v0 / 2 else v0
    let v : Int := v1 + (if apex then v1 / 2 else 0)
    ⟨v, v * 5 / 8⟩
  else 0

/-- Weakness of the own pawn shelter in front of the king by [distance from
edge][rank]; entries missing from the initializer are zero as in C. -/
def ShelterWeaknessT : List (List Int) :=
  [[97, 21, 26, 51, 87, 89, 99],
   [120, 0, 28, 76, 88, 103, 104],
   [101, 7, 54, 78, 77, 92, 101],
   [80, 11, 44, 68, 87, 90, 119]]

/-- Table lookup for ShelterWeakness, zero outside the initialized cells. -/
def ShelterWeakness (d r : Nat) : Int := (ShelterWeaknessT.getD d []).getD r 0

/-- Danger of enemy pawns moving toward the king by [block type][distance from
edge][rank]; block types in order NoFriendlyPawn, Unblocked, BlockedByPawn,
BlockedByKing; entries missing from the initializer are zero as in C. -/
def StormDangerT : List (List (List Int)) :=
  [[[0, 67, 134, 38, 32],
    [0, 57, 139, 37, 22],
    [0, 43, 115, 43, 27],
    [0, 68, 124, 57, 32]],
   [[20, 43, 100, 56, 20],
    [23, 20, 98, 40, 15],
    [23, 39, 103, 36, 18],
    [28, 19, 108, 42, 26]],
   [[0, 0, 75, 14, 2],
    [0, 0, 150, 30, 4],
    [0, 0, 160, 22, 5],
    [0, 0, 166, 24, 13]],
   [[0, -283, -281, 57, 31],
    [0, 58, 141, 39, 18],
    [0, 65, 142, 48, 32],
    [0, 60, 126, 51, 19]]]

/-- Table lookup for StormDanger, zero outside the initialized cells. -/
def StormDanger (t d r : Nat) : Int := ((StormDangerT.getD t []).getD d []).getD r 0

/-- Max bonus for king safety. -/
def MaxSafetyBonus : Int := 258

/-- The board state this core reads: the pawn bitboards of both sides and the
castling rights flags. -/
structure Pos where
  whitePawns : Bitboard
  blackPawns : Bitboard
  castleWK : Bool
  castleWQ : Bool
  castleBK : Bool
  castleBQ : Bool
deriving DecidableEq

/-- Pawns of one side (pieces_cp of the source). -/
def pieces_cp (pos : Pos) (c : Color) : Bitboard :=
  match c with
  | .white => pos.whitePawns
  | .black => pos.blackPawns

/-- All pawns on the board (pieces_p of the source). -/
def pieces_p (pos : Pos) : Bitboard := pos.whitePawns ∪ pos.blackPawns

/-- The enemy pawns as computed in pawn_evaluate: all pawns xor the own pawns,
which for the subset relation at hand is the set difference. -/
def theirPawnsOf (pos : Pos) (us : Color) : Bitboard :=
  pieces_p pos \ pieces_cp pos us

/-- Kingside castling right of a side. -/
def canCastleK (pos : Pos) (us : Color) : Bool :=
  match us with
  | .white => pos.castleWK
  | .black => pos.castleBK

/-- Queenside castling right of a side. -/
def canCastleQ (pos : Pos) (us : Color) : Bool :=
  match us with
  | .white => pos.castleWQ
  | .black => pos.castleBQ

/-- The per-side slots of a cache entry. -/
structure SideData where
  pawnAttacks : Bitboard
  pawnAttacksSpan : Bitboard
  passedPawns : Bitboard
  semiopenFiles : Finset (Fin 8)
  pawnsOnSquaresDark : Nat
  pawnsOnSquaresLight : Nat
  kingSquare : Option Square
  castlingRights : Bool × Bool
deriving DecidableEq

/-- A pawn cache entry. -/
structure PawnEntry where
  key : Nat
  score : Score
  white : SideData
  black : SideData
  asymmetry : Nat
  openFiles : Nat
deriving DecidableEq

/-- The file of a square as an element of Fin 8. -/
def fileFin (s : Square) : Fin 8 := ⟨s.val % 8, by omega⟩

/-- Opposed flag of a pawn: an enemy pawn is directly ahead on the same file. -/
def opposedFlag (pos : Pos) (us : Color) (s : Square) : Bool :=
  bbAny (theirPawnsOf pos us ∩ forward_bb us s)

/-- Stoppers of a pawn: enemy pawns inside its passed-pawn corridor. -/
def stoppers (pos : Pos) (us : Color) (s : Square) : Bitboard :=
  theirPawnsOf pos us ∩ passed_pawn_mask us s

/-- Lever flag of a pawn: an enemy pawn stands on a square this pawn attacks. -/
def leverFlag (pos : Pos) (us : Color) (s : Square) : Bool :=
  bbAny (theirPawnsOf pos us ∩ pawnAttacksBB us s)

/-- Doubled set of a pawn: the own pawn on the square directly ahead, if any. -/
def doubledBB (pos : Pos) (us : Color) (s : Square) : Bitboard :=
  pieces_cp pos us ∩ shiftDelta 0 (dirUp us) {s}

/-- Neighbours of a pawn: own pawns on the adjacent files. -/
def neighbours (pos : Pos) (us : Color) (s : Square) : Bitboard :=
  pieces_cp pos us ∩ adjacent_files_bb (fileOf s)

/-- Phalanx of a pawn: neighbours on the same rank. -/
def phalanx (pos : Pos) (us : Color) (s : Square) : Bitboard :=
  neighbours pos us s ∩ rank_bb_s s

/-- Supporters of a pawn: neighbours one rank behind it. -/
def supportedBB (pos : Pos) (us : Color) (s : Square) : Bitboard :=
  (neighbours pos us s).filter (fun t => (rankOf t : Int) + dirUp us = rankOf s)

/-- Connected flag of a pawn: it has a supporter or a phalanx neighbour. -/
def connectedFlag (pos : Pos) (us : Color) (s : Square) : Bool :=
  bbAny (supportedBB pos us s ∪ phalanx pos us s)

/-- Backward flag of a pawn, lines 128..142 of the source: never backward
without neighbours, with a lever, or from the 5th relative rank on; otherwise
backward iff a stopper intersects the rank of the backmost square among
neighbours and stoppers, or the adjacent-file squares one step ahead of it. -/
def backwardFlag (pos : Pos) (us : Color) (s : Square) : Bool :=
  if bbAny (neighbours pos us s) = false || leverFlag pos us s ||
      decide (4 ≤ relative_rank_s us s) then
    false
  else
    let b := rank_bb_s (backmost_sq us (neighbours pos us s ∪ stoppers pos us s))
    bbAny ((b ∪ shiftDelta 0 (dirUp us) (b ∩ adjacent_files_bb (fileOf s))) ∩
      stoppers pos us s)

/-- Passed flag of a pawn, line 146 of the source: no stoppers and no own pawn
ahead on the same file. -/
def passedFlag (pos : Pos) (us : Color) (s : Square) : Bool :=
  !bbAny (stoppers pos us s) && !bbAny (pieces_cp pos us ∩ forward_bb us s)

/-- The isolated / backward / unsupported penalty chain of one pawn, lines
150..157 of the source; the three cases are mutually exclusive. -/
def isoBackUnsupPenalty (pos : Pos) (us : Color) (s : Square) : Score :=
  if bbAny (neighbours pos us s) = false then -(Isolated (opposedFlag pos us s))
  else if backwardFlag pos us s then -(Backward (opposedFlag pos us s))
  else if bbAny (supportedBB pos us s) = false then -Unsupported
  else 0

/-- The full score contribution of one pawn, lines 150..166 of the source. -/
def pawnTerm (pos : Pos) (us : Color) (s : Square) : Score :=
  isoBackUnsupPenalty pos us s +
  (if connectedFlag pos us s then
    Connected (opposedFlag pos us s) (bbAny (phalanx pos us s))
      (decide (1 < (supportedBB pos us s).card)) (relative_rank_s us s)
  else 0) +
  (if bbAny (doubledBB pos us s) then -Doubled else 0) +
  (if leverFlag pos us s then Lever (relative_rank_s us s) else 0)

/-- One iteration of the pawn loop of pawn_evaluate: accumulate the score term
and update the passed pawn set, the semiopen file mask and the attack span. -/
def stepFn (pos : Pos) (us : Color) (st : Score × SideData) (s : Square) :
    Score × SideData :=
  (st.1 + pawnTerm pos us s,
   { st.2 with
     semiopenFiles := st.2.semiopenFiles.erase (fileFin s),
     pawnAttacksSpan := st.2.pawnAttacksSpan ∪ pawn_attack_span us s,
     passedPawns :=
       if passedFlag pos us s then st.2.passedPawns ∪ {s} else st.2.passedPawns })

/-- The pawns of a side listed in increasing square order, the order in which
the pawn loop of the source pops them from the bitboard. -/
def pawnSquares (b : Bitboard) : List Square :=
  (List.finRange 64).filter (fun t => t ∈ b)

/-- pawn_evaluate of the source: reset the per-side entry slots, then loop over
the pawns of the side accumulating score and derived data. The castling rights
slot is not touched by this function. -/
def pawn_evaluate (pos : Pos) (sd : SideData) (us : Color) : Score × SideData :=
  let ourPawns := pieces_cp pos us
  let init : SideData :=
    { pawnAttacks := shiftDelta 1 (dirUp us) ourPawns ∪ shiftDelta (-1) (dirUp us) ourPawns,
      pawnAttacksSpan := ∅,
      passedPawns := ∅,
      semiopenFiles := Finset.univ,
      pawnsOnSquaresDark := (ourPawns ∩ DarkSquares).card,
      pawnsOnSquaresLight := (ourPawns ∩ LightSquares).card,
      kingSquare := none,
      castlingRights := sd.castlingRights }
  (pawnSquares ourPawns).foldl (stepFn pos us) (0, init)

/-- pawn_entry_fill of the source: run both sides, difference the scores and
derive the asymmetry and open file statistics. -/
def pawn_entry_fill (pos : Pos) (e : PawnEntry) (key : Nat) : PawnEntry :=
  let w := pawn_evaluate pos e.white Color.white
  let b := pawn_evaluate pos e.black Color.black
  { key := key,
    score := w.1 - b.1,
    white := w.2,
    black := b.2,
    asymmetry := (symmDiff w.2.semiopenFiles b.2.semiopenFiles).card,
    openFiles := (w.2.semiopenFiles ∩ b.2.semiopenFiles).card }

/-- The per-file subtraction of shelter_storm, lines 217..229 of the source:
ranks of the backmost own and frontmost enemy pawn on the file among the pawns
under consideration, the block state by the nested conditional of the source,
and the resulting table values. -/
def filePenalty (ourP theirP : Bitboard) (ksq : Square) (us : Color) (f : Nat) : Int :=
  let bU := ourP ∩ file_bb f
  let rkUs : Nat :=
    if bU.Nonempty then relative_rank_s us (backmost_sq us bU) else 0
  let bT := theirP ∩ file_bb f
  let rkThem : Nat :=
    if bT.Nonempty then relative_rank_s us (frontmost_sq (Color.other us) bT) else 0
  let idx : Nat :=
    if f = fileOf ksq ∧ rkThem = relative_rank_s us ksq + 1 then 3
    else if rkUs = 0 then 0
    else if rkThem = rkUs + 1 then 2
    else 1
  ShelterWeakness (min f (7 - f)) rkUs + StormDanger idx (min f (7 - f)) rkThem

/-- The file loop of shelter_storm over the three files centered on the clamped
king file, starting from the maximum safety bonus. -/
def shelterCore (ourP theirP : Bitboard) (ksq : Square) (us : Color) : Int :=
  let center := max 1 (min 6 (fileOf ksq))
  [center - 1, center, center + 1].foldl
    (fun safety f => safety - filePenalty ourP theirP ksq us f) MaxSafetyBonus

/-- shelter_storm of the source: restrict both sides to the pawns on the rank of
the king or ahead of it, then run the file loop. -/
def shelter_storm (pos : Pos) (ksq : Square) (us : Color) : Int :=
  let b := pieces_p pos ∩ (in_front_bb us (rankOf ksq) ∪ rank_bb_s ksq)
  shelterCore (b ∩ pieces_cp pos us) (b ∩ pieces_cp pos (Color.other us)) ksq us

/-- The ring scan of do_king_safety with explicit fuel: starting from ring index
i, return one past the first ring index containing an own pawn, or none when
the fuel runs out. -/
def ringScan (ksq : Square) (pawns : Bitboard) : Nat → Nat → Option Nat
  | 0, _ => none
  | fuel + 1, i =>
    if bbAny (DistanceRingBB ksq i ∩ pawns) then some (i + 1)
    else ringScan ksq pawns fuel (i + 1)

/-- The minKingPawnDistance computation of do_king_safety: zero when the side
has no pawns, otherwise the value produced by the ring scan. -/
def kingSafetyDistance (pos : Pos) (us : Color) (ksq : Square) : Nat :=
  if bbAny (pieces_cp pos us) then (ringScan ksq (pieces_cp pos us) 8 0).getD 0
  else 0

/-- do_king_safety of the source: record the king square and castling rights
snapshot, compute the king-to-pawn distance, and take the best shelter value
among the current king square and the reachable castling destinations. -/
def do_king_safety (sd : SideData) (pos : Pos) (ksq : Square) (us : Color) :
    SideData × Score :=
  let sd2 :=
    { sd with
      kingSquare := some ksq,
      castlingRights := (canCastleK pos us, canCastleQ pos us) }
  let d := kingSafetyDistance pos us ksq
  let bonus0 := shelter_storm pos ksq us
  let bonus1 :=
    if canCastleK pos us then
      max bonus0 (shelter_storm pos (relative_square us SQ_G1) us)
    else bonus0
  let bonus2 :=
    if canCastleQ pos us then
      max bonus1 (shelter_storm pos (relative_square us SQ_C1) us)
    else bonus1
  (sd2, ⟨bonus2, -16 * (d : Int)⟩)

/-- Modelled from the spec: the minimum board distance from the king to the
nearest own pawn, zero when the side has no pawns (the quantity the ring scan
of do_king_safety is specified to compute). -/
def kingPawnMinDist (pos : Pos) (us : Color) (ksq : Square) : Nat :=
  if h : (pieces_cp pos us).Nonempty then
    ((pieces_cp pos us).image (chebyshev ksq)).min' (h.image _)
  else 0

/-- The number of files holding a pawn of both sides. -/
def bothPawnFiles (pos : Pos) : Nat :=
  ((pos.whitePawns.image fileFin) ∩ (pos.blackPawns.image fileFin)).card

/-- The backward criterion exactly as the specification sentence words it: the
first disjunct demands the stopper on the backmost rank to stand on the file of
the pawn itself. Written for comparison against the source criterion. -/
def backwardSpecOriginal (pos : Pos) (us : Color) (s : Square) : Prop :=
  bbAny (neighbours pos us s) = true ∧ leverFlag pos us s = false ∧
  relative_rank_s us s < 4 ∧
  ∃ t ∈ stoppers pos us s,
    (fileOf t = fileOf s ∧
      rankOf t = rankOf (backmost_sq us (neighbours pos us s ∪ stoppers pos us s))) ∨
    (natDist (fileOf t) (fileOf s) = 1 ∧
      (rankOf t : Int) =
        rankOf (backmost_sq us (neighbours pos us s ∪ stoppers pos us s)) + dirUp us)

instance (pos : Pos) (us : Color) (s : Square) :
    Decidable (backwardSpecOriginal pos us s) := by
  unfold backwardSpecOriginal
  infer_instance

/-- The per-file subtraction of shelter_storm as the specification words it:
same ranks rkUs and rkThem, but the block state decided by the first matching
case among BlockedByKing (king file and an enemy pawn one rank ahead of the
king), NoFriendlyPawn (no own pawn under consideration on the file),
BlockedByPawn (enemy pawn one rank ahead of the own pawn), else Unblocked. -/
def specFilePenalty (ourP theirP : Bitboard) (ksq : Square) (us : Color) (f : Nat) : Int :=
  let bU := ourP ∩ file_bb f
  let rkUs : Nat :=
    if bU.Nonempty then relative_rank_s us (backmost_sq us bU) else 0
  let bT := theirP ∩ file_bb f
  let rkThem : Nat :=
    if bT.Nonempty then relative_rank_s us (frontmost_sq (Color.other us) bT) else 0
  let idx : Nat :=
    if f = fileOf ksq ∧ ∃ t ∈ bT, relative_rank_s us t = relative_rank_s us ksq + 1 then 3
    else if bU = ∅ then 0
    else if rkThem = rkUs + 1 then 2
    else 1
  ShelterWeakness (min f (7 - f)) rkUs + StormDanger idx (min f (7 - f)) rkThem

/-- shelter_storm as the specification words it: the maximum safety constant
minus the sum of the per-file subtractions over exactly the three files
centered on the king file clamped into FILE_B..FILE_G. -/
def specShelterStorm (pos : Pos) (ksq : Square) (us : Color) : Int :=
  let b := pieces_p pos ∩ (in_front_bb us (rankOf ksq) ∪ rank_bb_s ksq)
  let ourP := b ∩ pieces_cp pos us
  let theirP := b ∩ pieces_cp pos (Color.other us)
  let center := max 1 (min 6 (fileOf ksq))
  MaxSafetyBonus -
    (specFilePenalty ourP theirP ksq us (center - 1) +
     specFilePenalty ourP theirP ksq us center +
     specFilePenalty ourP theirP ksq us (center + 1))

/-- A side slot with every field cleared, used as the input of fixtures. -/
def emptySide : SideData :=
  { pawnAttacks := ∅,
    pawnAttacksSpan := ∅,
    passedPawns := ∅,
    semiopenFiles := ∅,
    pawnsOnSquaresDark := 0,
    pawnsOnSquaresLight := 0,
    kingSquare := none,
    castlingRights := (false, false) }

/-- An entry with every field cleared, used as the input of fixtures. -/
def emptyEntry : PawnEntry :=
  { key := 0, score := 0, white := emptySide, black := emptySide,
    asymmetry := 0, openFiles := 0 }

/-- Fixture: White pawns b2 and c2, a phalanx with no supporters. -/
def posPhalanx : Pos :=
  { whitePawns := {9, 10}, blackPawns := ∅,
    castleWK := false, castleWQ := false, castleBK := false, castleBQ := false }

/-- Fixture: White pawns a2 and a3, doubled isolated pawns. -/
def posDoubledIso : Pos :=
  { whitePawns := {8, 16}, blackPawns := ∅,
    castleWK := false, castleWQ := false, castleBK := false, castleBQ := false }

/-- Fixture: White pawns c2 and b5, Black pawn d4 — the Black stopper d4 sits on
the backmost rank of the neighbours and stoppers of the pawn c2, on an adjacent
file. -/
def posBackAdj : Pos :=
  { whitePawns := {10, 33}, blackPawns := {27},
    castleWK := false, castleWQ := false, castleBK := false, castleBQ := false }

/-- Fixture: White pawn a2 against Black pawn a7 — seven files open for both
sides and one file with pawns of both sides. -/
def posOneFile : Pos :=
  { whitePawns := {8}, blackPawns := {48},
    castleWK := false, castleWQ := false, castleBK := false, castleBQ := false }

/-- Fixture: a White kingside shelter with the Black g-pawn storming. -/
def posShelter : Pos :=
  { whitePawns := {13, 14, 15}, blackPawns := {38, 53},
    castleWK := true, castleWQ := false, castleBK := false, castleBQ := false }

/-- Fixture: the same pawns as posShelter with an extra Black pawn on e2,
strictly behind the rank of a king standing on e4. -/
def posShelterBehind : Pos :=
  { whitePawns := {13, 14, 15}, blackPawns := {12, 38, 53},
    castleWK := true, castleWQ := false, castleBK := false, castleBQ := false }

/-! ## Basic lemmas -/

theorem bbAny_eq_true {n : Nat} {b : Finset (Fin n)} : bbAny b = true ↔ b.Nonempty := by
  simp [bbAny, Finset.nonempty_iff_ne_empty]

theorem bbAny_eq_false {n : Nat} {b : Finset (Fin n)} : bbAny b = false ↔ b = ∅ := by
  simp [bbAny]

theorem fileOf_lt (s : Square) : fileOf s < 8 := by
  simp [fileOf]
  omega

theorem rankOf_lt (s : Square) : rankOf s < 8 := by
  have h := s.isLt
  simp [rankOf]
  omega

theorem sq_ext {a b : Square} (hf : fileOf a = fileOf b) (hr : rankOf a = rankOf b) :
    a = b := by
  have ha := a.isLt
  have hb := b.isLt
  simp [fileOf, rankOf] at hf hr
  apply Fin.ext
  omega

theorem fileOf_mkSq {f r : Nat} (hf : f < 8) : fileOf (mkSq f r) = f := by
  simp [mkSq, fileOf]
  omega

theorem rankOf_mkSq {f r : Nat} (hr : r < 8) : rankOf (mkSq f r) = r := by
  simp [mkSq, rankOf]
  omega

theorem relative_rank_lt (us : Color) (s : Square) : relative_rank_s us s < 8 := by
  have h := rankOf_lt s
  cases us <;> simp [relative_rank_s, relative_rank] <;> omega

theorem relative_rank_inj {us : Color} {r1 r2 : Nat} (h1 : r1 < 8) (h2 : r2 < 8)
    (h : relative_rank us r1 = relative_rank us r2) : r1 = r2 := by
  cases us <;> simp [relative_rank] at h <;> omega

theorem score_add_zero (a : Score) : a + (0 : Score) = a := by
  show Score.mk (a.mg + 0) (a.eg + 0) = a
  simp

theorem score_zero_add (a : Score) : (0 : Score) + a = a := by
  show Score.mk (0 + a.mg) (0 + a.eg) = a
  simp

theorem mem_shiftDelta {df dr : Int} {b : Bitboard} {t : Square} :
    t ∈ shiftDelta df dr b ↔
      ∃ p ∈ b, (fileOf t : Int) = fileOf p + df ∧ (rankOf t : Int) = rankOf p + dr := by
  simp [shiftDelta]

theorem mem_rank_bb {r : Nat} {t : Square} : t ∈ rank_bb r ↔ rankOf t = r := by
  simp [rank_bb]

theorem mem_file_bb {f : Nat} {t : Square} : t ∈ file_bb f ↔ fileOf t = f := by
  simp [file_bb]

theorem mem_adjacent_files_bb {f : Nat} {t : Square} :
    t ∈ adjacent_files_bb f ↔ natDist (fileOf t) f = 1 := by
  simp [adjacent_files_bb]

theorem rankOf_mono {a b : Square} (h : a ≤ b) : rankOf a ≤ rankOf b := by
  have hab : a.val ≤ b.val := h
  simp [rankOf]
  omega

theorem backmost_sq_mem (us : Color) {b : Bitboard} (h : b.Nonempty) :
    backmost_sq us b ∈ b := by
  cases us
  · show (if h : b.Nonempty then b.min' h else 0) ∈ b
    rw [dif_pos h]
    exact b.min'_mem h
  · show (if h : b.Nonempty then b.max' h else 0) ∈ b
    rw [dif_pos h]
    exact b.max'_mem h

theorem backmost_sq_least (us : Color) {b : Bitboard} (h : b.Nonempty) :
    ∀ t ∈ b, relative_rank_s us (backmost_sq us b) ≤ relative_rank_s us t := by
  intro t ht
  cases us
  · show relative_rank_s .white (if h : b.Nonempty then b.min' h else 0) ≤ _
    rw [dif_pos h]
    exact rankOf_mono (b.min'_le t ht)
  · show relative_rank_s .black (if h : b.Nonempty then b.max' h else 0) ≤ _
    rw [dif_pos h]
    have := rankOf_mono (b.le_max' t ht)
    simp only [relative_rank_s, relative_rank]
    omega

theorem frontmost_other_mem (us : Color) {b : Bitboard} (h : b.Nonempty) :
    frontmost_sq (Color.other us) b ∈ b := by
  cases us
  · show (if h : b.Nonempty then b.min' h else 0) ∈ b
    rw [dif_pos h]
    exact b.min'_mem h
  · show (if h : b.Nonempty then b.max' h else 0) ∈ b
    rw [dif_pos h]
    exact b.max'_mem h

theorem frontmost_other_least (us : Color) {b : Bitboard} (h : b.Nonempty) :
    ∀ t ∈ b,
      relative_rank_s us (frontmost_sq (Color.other us) b) ≤ relative_rank_s us t := by
  intro t ht
  cases us
  · show relative_rank_s .white (if h : b.Nonempty then b.min' h else 0) ≤ _
    rw [dif_pos h]
    exact rankOf_mono (b.min'_le t ht)
  · show relative_rank_s .black (if h : b.Nonempty then b.max' h else 0) ≤ _
    rw [dif_pos h]
    have := rankOf_mono (b.le_max' t ht)
    simp only [relative_rank_s, relative_rank]
    omega

/-! ## Claim C1 -/

/-- Claim C1 (counterexample): for the White phalanx pawns b2, c2 the pawn b2
has a neighbour, is not backward and is connected (phalanx), yet the flat
Unsupported penalty is applied — refuting that the penalty is subtracted only
if connected is false. -/
theorem c1_counterexample :
    bbAny (neighbours posPhalanx Color.white 9) = true ∧
    backwardFlag posPhalanx Color.white 9 = false ∧
    connectedFlag posPhalanx Color.white 9 = true ∧
    isoBackUnsupPenalty posPhalanx Color.white 9 = -Unsupported := by
  decide

/-- Claim C1 (amended): for every pawn with at least one neighbour that is not
classified backward, the flat Unsupported penalty is subtracted if and only if
the pawn has no direct supporter one rank behind; a same-rank phalanx
neighbour does not prevent the penalty. -/
theorem c1_unsupported_iff_no_supporter (pos : Pos) (us : Color) (s : Square)
    (_hs : s ∈ pieces_cp pos us)
    (hn : bbAny (neighbours pos us s) = true)
    (hb : backwardFlag pos us s = false) :
    isoBackUnsupPenalty pos us s = -Unsupported ↔ supportedBB pos us s = ∅ := by
  unfold isoBackUnsupPenalty
  rw [hn, hb]
  simp only [Bool.true_eq_false, if_false, Bool.false_eq_true]
  by_cases hsup : supportedBB pos us s = ∅
  · rw [hsup]
    decide
  · have ht : bbAny (supportedBB pos us s) = true :=
      bbAny_eq_true.mpr (Finset.nonempty_iff_ne_empty.mpr hsup)
    simp [hsup, ht]
    decide

/-- Claim C1 (witness): the amended statement instantiated at the pawn b2 of
the phalanx fixture. -/
theorem c1_witness :
    (9 : Square) ∈ pieces_cp posPhalanx Color.white ∧
    bbAny (neighbours posPhalanx Color.white 9) = true ∧
    backwardFlag posPhalanx Color.white 9 = false ∧
    (isoBackUnsupPenalty posPhalanx Color.white 9 = -Unsupported ↔
      supportedBB posPhalanx Color.white 9 = ∅) :=
  ⟨by decide, by decide, by decide,
    c1_unsupported_iff_no_supporter posPhalanx Color.white 9
      (by decide) (by decide) (by decide)⟩

/-! ## Claim C3 -/

/-- Claim C3 (counterexample): the White pawn a2 of the doubled-isolated
fixture has no neighbour, is scored isolated, and nevertheless has the doubled
flag set — refuting that an isolated pawn is never classified doubled. -/
theorem c3_counterexample :
    neighbours posDoubledIso Color.white 8 = ∅ ∧
    isoBackUnsupPenalty posDoubledIso Color.white 8 =
      -(Isolated (opposedFlag posDoubledIso Color.white 8)) ∧
    doubledBB posDoubledIso Color.white 8 ≠ ∅ := by
  decide

/-- Claim C3 (amended): a pawn with no same-color pawn on either adjacent file
is classified isolated (subtracting the Isolated penalty by opposed flag) and
is never backward or connected; the doubled and lever terms still apply
independently, so such a pawn can be doubled. -/
theorem c3_isolated_classification (pos : Pos) (us : Color) (s : Square)
    (_hs : s ∈ pieces_cp pos us) (hn : neighbours pos us s = ∅) :
    backwardFlag pos us s = false ∧ connectedFlag pos us s = false ∧
    pawnTerm pos us s =
      -(Isolated (opposedFlag pos us s)) +
      (if bbAny (doubledBB pos us s) then -Doubled else 0) +
      (if leverFlag pos us s then Lever (relative_rank_s us s) else 0) := by
  have hb : bbAny (neighbours pos us s) = false := bbAny_eq_false.mpr hn
  have hsup : supportedBB pos us s = ∅ := by
    unfold supportedBB
    rw [hn]
    simp
  have hph : phalanx pos us s = ∅ := by
    unfold phalanx
    rw [hn]
    simp
  have hc : connectedFlag pos us s = false := by
    unfold connectedFlag
    rw [hsup, hph]
    simp [bbAny]
  have hback : backwardFlag pos us s = false := by
    unfold backwardFlag
    rw [hb]
    simp
  refine ⟨hback, hc, ?_⟩
  unfold pawnTerm isoBackUnsupPenalty
  rw [hb, hc]
  simp only [if_pos, Bool.false_eq_true, if_false]
  rw [score_add_zero]

/-- Claim C3 (witness): the amended statement instantiated at the pawn a2 of
the doubled-isolated fixture. -/
theorem c3_witness :
    (8 : Square) ∈ pieces_cp posDoubledIso Color.white ∧
    neighbours posDoubledIso Color.white 8 = ∅ ∧
    (backwardFlag posDoubledIso Color.white 8 = false ∧
     connectedFlag posDoubledIso Color.white 8 = false ∧
     pawnTerm posDoubledIso Color.white 8 =
       -(Isolated (opposedFlag posDoubledIso Color.white 8)) +
       (if bbAny (doubledBB posDoubledIso Color.white 8) then -Doubled else 0) +
       (if leverFlag posDoubledIso Color.white 8 then
         Lever (relative_rank_s Color.white 8) else 0)) :=
  ⟨by decide, by decide,
    c3_isolated_classification posDoubledIso Color.white 8 (by decide) (by decide)⟩

/-! ## Claim C8 -/

/-- Claim C8: the connected bonus table holds, for each rank 1..6 and flag
combination, the seed value of the rank, plus half the seed gap to the next
rank if phalanx, halved if opposed, then increased by half of itself if twice
supported, with midgame component v and endgame component v * 5 / 8, all in
truncating integer arithmetic. -/
theorem c8_connected_table (r : Nat) (h1 : 1 ≤ r) (h2 : r ≤ 6) (o p a : Bool) :
    Connected o p a r =
      (let v0 : Int :=
        Seed.getD r 0 + (if p then (Seed.getD (r + 1) 0 - Seed.getD r 0) / 2 else 0)
       let v1 : Int := if o then v0 / 2 else v0
       let v : Int := v1 + (if a then v1 / 2 else 0)
       make_score v (v * 5 / 8)) := by
  interval_cases r <;> cases o <;> cases p <;> cases a <;> decide

/-- Claim C8 (witness): the table statement instantiated at rank 3 with all
flags set. -/
theorem c8_witness :
    1 ≤ 3 ∧ (3 : Nat) ≤ 6 ∧
    Connected true true true 3 =
      (let v0 : Int :=
        Seed.getD 3 0 + (if true then (Seed.getD 4 0 - Seed.getD 3 0) / 2 else 0)
       let v1 : Int := if true then v0 / 2 else v0
       let v : Int := v1 + (if true then v1 / 2 else 0)
       make_score v (v * 5 / 8)) :=
  ⟨by decide, by decide, c8_connected_table 3 (by decide) (by decide) true true true⟩

/-! ## The pawn loop: projections of the fold -/

theorem foldl_semiopen (pos : Pos) (us : Color) (l : List Square)
    (st : Score × SideData) :
    (l.foldl (stepFn pos us) st).2.semiopenFiles =
      st.2.semiopenFiles \ (l.map fileFin).toFinset := by
  induction l generalizing st with
  | nil => simp
  | cons p l ih =>
    rw [List.foldl_cons, ih]
    ext x
    simp only [stepFn, Finset.mem_sdiff, Finset.mem_erase, List.map_cons,
      List.toFinset_cons, Finset.mem_insert, List.mem_toFinset, List.mem_map]
    aesop

theorem foldl_passed_mem (pos : Pos) (us : Color) (l : List Square)
    (st : Score × SideData) (x : Square) :
    x ∈ (l.foldl (stepFn pos us) st).2.passedPawns ↔
      x ∈ st.2.passedPawns ∨ (x ∈ l ∧ passedFlag pos us x = true) := by
  induction l generalizing st with
  | nil => simp
  | cons p l ih =>
    rw [List.foldl_cons, ih]
    by_cases hp : passedFlag pos us p = true <;>
      by_cases hx : x = p <;>
        simp [stepFn, hp, hx]

theorem semiopen_eval (pos : Pos) (sd : SideData) (us : Color) :
    (pawn_evaluate pos sd us).2.semiopenFiles =
      Finset.univ \ ((pieces_cp pos us).image fileFin) := by
  have hlist : ((pawnSquares (pieces_cp pos us)).map fileFin).toFinset =
      (pieces_cp pos us).image fileFin := by
    ext x
    simp [pawnSquares, List.mem_filter, List.mem_finRange]
  simp only [pawn_evaluate]
  rw [foldl_semiopen, hlist]

/-! ## Claim C2 -/

/-- Claim C2 (counterexample): a single White pawn a2 against a single Black
pawn a7 gives asymmetry 0, seven open files and one file with pawns of both
sides, so asymmetry + 2 * openFiles + bothPawnFiles = 15, not 8. -/
theorem c2_counterexample :
    (pawn_entry_fill posOneFile emptyEntry 0).asymmetry +
      2 * (pawn_entry_fill posOneFile emptyEntry 0).openFiles +
      bothPawnFiles posOneFile = 15 ∧ (15 : Nat) ≠ 8 := by
  constructor
  · decide
  · decide

/-- Claim C2 (amended): for every filled cache entry, asymmetry plus openFiles
plus the number of files containing a pawn of both sides equals 8 (the factor
two of the original claim removed). -/
theorem c2_semiopen_identity (pos : Pos) (e : PawnEntry) (key : Nat) :
    (pawn_entry_fill pos e key).asymmetry + (pawn_entry_fill pos e key).openFiles +
      bothPawnFiles pos = 8 := by
  have hw := semiopen_eval pos e.white Color.white
  have hb := semiopen_eval pos e.black Color.black
  simp only [pawn_entry_fill, bothPawnFiles]
  rw [hw, hb]
  simp only [pieces_cp]
  rw [← Finset.compl_eq_univ_sdiff, ← Finset.compl_eq_univ_sdiff,
    compl_symmDiff_compl, ← Finset.compl_union, Finset.card_compl,
    symmDiff_eq_sup_sdiff_inf]
  simp only [Finset.sup_eq_union, Finset.inf_eq_inter, Fintype.card_fin]
  rw [Finset.card_sdiff Finset.inter_subset_union]
  have h1 : ((pos.whitePawns.image fileFin) ∩ (pos.blackPawns.image fileFin)).card ≤
      ((pos.whitePawns.image fileFin) ∪ (pos.blackPawns.image fileFin)).card :=
    Finset.card_le_card Finset.inter_subset_union
  have h2 : ((pos.whitePawns.image fileFin) ∪ (pos.blackPawns.image fileFin)).card ≤ 8 := by
    have h3 := Finset.card_le_univ
      ((pos.whitePawns.image fileFin) ∪ (pos.blackPawns.image fileFin))
    simpa using h3
  omega

/-! ## Claim C7 -/

/-- Claim C7: a pawn of a side is in that side passedPawns set if and only if
it has no stoppers (no enemy pawn in the passed-pawn corridor) and no friendly
pawn ahead on its own file. -/
theorem c7_passed_iff (pos : Pos) (sd : SideData) (us : Color) (s : Square)
    (hs : s ∈ pieces_cp pos us) :
    s ∈ (pawn_evaluate pos sd us).2.passedPawns ↔
      stoppers pos us s = ∅ ∧ pieces_cp pos us ∩ forward_bb us s = ∅ := by
  simp only [pawn_evaluate]
  rw [foldl_passed_mem]
  simp [pawnSquares, List.mem_filter, List.mem_finRange, hs, passedFlag,
    Bool.and_eq_true, Bool.not_eq_true', bbAny_eq_false]

/-- Claim C7 (witness): the doubled-isolated fixture has no Black pawns at all,
yet the White pawn a2 is not passed because its own pawn a3 blocks the file. -/
theorem c7_witness :
    (8 : Square) ∈ pieces_cp posDoubledIso Color.white ∧
    ((8 : Square) ∈ (pawn_evaluate posDoubledIso emptySide Color.white).2.passedPawns ↔
      stoppers posDoubledIso Color.white 8 = ∅ ∧
      pieces_cp posDoubledIso Color.white ∩ forward_bb Color.white 8 = ∅) :=
  ⟨by decide, c7_passed_iff posDoubledIso emptySide Color.white 8 (by decide)⟩

/-! ## Claim C4 -/

theorem mem_shift_rank_adj (us : Color) (br f : Nat) (hbr : br < 8) (t : Square) :
    t ∈ shiftDelta 0 (dirUp us) (rank_bb br ∩ adjacent_files_bb f) ↔
      (natDist (fileOf t) f = 1 ∧ (rankOf t : Int) = br + dirUp us) := by
  rw [mem_shiftDelta]
  constructor
  · rintro ⟨p, hp, hf, hr⟩
    rw [Finset.mem_inter, mem_rank_bb, mem_adjacent_files_bb] at hp
    obtain ⟨hpr, hpf⟩ := hp
    have hfe : fileOf t = fileOf p := by omega
    refine ⟨by rw [hfe]; exact hpf, by rw [hr, hpr]⟩
  · rintro ⟨hf, hr⟩
    refine ⟨mkSq (fileOf t) br, ?_, ?_, ?_⟩
    · rw [Finset.mem_inter, mem_rank_bb, mem_adjacent_files_bb]
      refine ⟨rankOf_mkSq hbr, ?_⟩
      rw [fileOf_mkSq (fileOf_lt t)]
      exact hf
    · rw [fileOf_mkSq (fileOf_lt t)]
      omega
    · rw [rankOf_mkSq hbr]
      exact hr

/-- Claim C4 (counterexample): in the fixture with White pawns c2, b5 and the
Black pawn d4, the pawn c2 is backward in the source (the stopper d4 sits on
the backmost rank on an adjacent file), while the wording of the claim — which
demands the stopper on the backmost rank to stand on the file of the pawn
itself — classifies it as not backward. -/
theorem c4_counterexample :
    backwardFlag posBackAdj Color.white 10 = true ∧
    ¬ backwardSpecOriginal posBackAdj Color.white 10 := by
  decide

/-- Claim C4 (amended): a pawn with no neighbours, or with a lever, or on its
5th relative rank or beyond, is never backward; otherwise the pawn is backward
iff an enemy stopper occupies the rank closest to the own back rank among the
neighbours and stoppers — on the pawn file or an adjacent file — or occupies
an adjacent-file square one step further forward from that rank. -/
theorem c4_backward_iff (pos : Pos) (us : Color) (s : Square)
    (_hs : s ∈ pieces_cp pos us) :
    backwardFlag pos us s = true ↔
      bbAny (neighbours pos us s) = true ∧ leverFlag pos us s = false ∧
      relative_rank_s us s < 4 ∧
      ∃ t ∈ stoppers pos us s,
        rankOf t = rankOf (backmost_sq us (neighbours pos us s ∪ stoppers pos us s)) ∨
        (natDist (fileOf t) (fileOf s) = 1 ∧
          (rankOf t : Int) =
            rankOf (backmost_sq us (neighbours pos us s ∪ stoppers pos us s)) + dirUp us) := by
  unfold backwardFlag
  by_cases h1 : bbAny (neighbours pos us s) = true
  case neg =>
    have h1' : bbAny (neighbours pos us s) = false := Bool.eq_false_iff.mpr h1
    simp [h1']
  by_cases h2 : leverFlag pos us s = true
  case pos => simp [h1, h2]
  have h2' : leverFlag pos us s = false := Bool.eq_false_iff.mpr h2
  by_cases h3 : 4 ≤ relative_rank_s us s
  case pos =>
    have h3' : ¬(relative_rank_s us s < 4) := by omega
    simp [h1, h2', h3, h3']
  have h3' : relative_rank_s us s < 4 := by omega
  have hmain : bbAny ((rank_bb_s (backmost_sq us (neighbours pos us s ∪ stoppers pos us s)) ∪
      shiftDelta 0 (dirUp us)
        (rank_bb_s (backmost_sq us (neighbours pos us s ∪ stoppers pos us s)) ∩
          adjacent_files_bb (fileOf s))) ∩ stoppers pos us s) = true ↔
      ∃ t ∈ stoppers pos us s,
        rankOf t = rankOf (backmost_sq us (neighbours pos us s ∪ stoppers pos us s)) ∨
        (natDist (fileOf t) (fileOf s) = 1 ∧
          (rankOf t : Int) =
            rankOf (backmost_sq us (neighbours pos us s ∪ stoppers pos us s)) + dirUp us) := by
    rw [bbAny_eq_true]
    constructor
    · rintro ⟨t, ht⟩
      rw [Finset.mem_inter, Finset.mem_union] at ht
      obtain ⟨hmem, hstop⟩ := ht
      refine ⟨t, hstop, ?_⟩
      rcases hmem with hb | hsh
      · exact Or.inl (mem_rank_bb.mp hb)
      · exact Or.inr ((mem_shift_rank_adj us _ _ (rankOf_lt _) t).mp hsh)
    · rintro ⟨t, hstop, hcond⟩
      refine ⟨t, Finset.mem_inter.mpr ⟨Finset.mem_union.mpr ?_, hstop⟩⟩
      rcases hcond with hr | hadj
      · exact Or.inl (mem_rank_bb.mpr hr)
      · exact Or.inr ((mem_shift_rank_adj us _ _ (rankOf_lt _) t).mpr hadj)
  simp [h1, h2', h3, h3', hmain]

/-- Claim C4 (witness): the amended criterion instantiated at the pawn c2 of
the adjacent-file stopper fixture; the existential holds through the stopper
d4 on the backmost rank. -/
theorem c4_witness :
    (10 : Square) ∈ pieces_cp posBackAdj Color.white ∧
    (backwardFlag posBackAdj Color.white 10 = true ↔
      bbAny (neighbours posBackAdj Color.white 10) = true ∧
      leverFlag posBackAdj Color.white 10 = false ∧
      relative_rank_s Color.white 10 < 4 ∧
      ∃ t ∈ stoppers posBackAdj Color.white 10,
        rankOf t =
          rankOf (backmost_sq Color.white
            (neighbours posBackAdj Color.white 10 ∪ stoppers posBackAdj Color.white 10)) ∨
        (natDist (fileOf t) (fileOf (10 : Square)) = 1 ∧
          (rankOf t : Int) =
            rankOf (backmost_sq Color.white
              (neighbours posBackAdj Color.white 10 ∪ stoppers posBackAdj Color.white 10)) +
              dirUp Color.white)) :=
  ⟨by decide, c4_backward_iff posBackAdj Color.white 10 (by decide)⟩

/-! ## Claim C9 -/

theorem inter_region_left (X Y R : Bitboard) : (X ∪ Y) ∩ R ∩ X = X ∩ R := by
  ext t
  simp only [Finset.mem_inter, Finset.mem_union]
  tauto

theorem inter_region_right (X Y R : Bitboard) : (X ∪ Y) ∩ R ∩ Y = Y ∩ R := by
  ext t
  simp only [Finset.mem_inter, Finset.mem_union]
  tauto

/-- Claim C9: shelter_storm depends only on the pawns standing on the rank of
the king or ahead of it from the evaluated side: two positions whose pawn
placements agree there get the same value. -/
theorem c9_behind_king_irrelevant (pos1 pos2 : Pos) (ksq : Square) (us : Color)
    (hw : pos1.whitePawns ∩ (in_front_bb us (rankOf ksq) ∪ rank_bb_s ksq) =
      pos2.whitePawns ∩ (in_front_bb us (rankOf ksq) ∪ rank_bb_s ksq))
    (hb : pos1.blackPawns ∩ (in_front_bb us (rankOf ksq) ∪ rank_bb_s ksq) =
      pos2.blackPawns ∩ (in_front_bb us (rankOf ksq) ∪ rank_bb_s ksq)) :
    shelter_storm pos1 ksq us = shelter_storm pos2 ksq us := by
  cases us
  · simp only [shelter_storm, pieces_p, pieces_cp, Color.other]
    rw [inter_region_left, inter_region_right, inter_region_left,
      inter_region_right, hw, hb]
  · simp only [shelter_storm, pieces_p, pieces_cp, Color.other]
    rw [inter_region_right, inter_region_left, inter_region_right,
      inter_region_left, hw, hb]

/-- Claim C9 (witness): adding a Black pawn on e2, strictly behind a White king
on e4, leaves the shelter value unchanged. -/
theorem c9_witness :
    (posShelter.whitePawns ∩
        (in_front_bb Color.white (rankOf 28) ∪ rank_bb_s 28) =
      posShelterBehind.whitePawns ∩
        (in_front_bb Color.white (rankOf 28) ∪ rank_bb_s 28)) ∧
    (posShelter.blackPawns ∩
        (in_front_bb Color.white (rankOf 28) ∪ rank_bb_s 28) =
      posShelterBehind.blackPawns ∩
        (in_front_bb Color.white (rankOf 28) ∪ rank_bb_s 28)) ∧
    shelter_storm posShelter 28 Color.white =
      shelter_storm posShelterBehind 28 Color.white :=
  ⟨by decide, by decide,
    c9_behind_king_irrelevant posShelter posShelterBehind 28 Color.white
      (by decide) (by decide)⟩

/-! ## The ring scan of do_king_safety -/

theorem chebyshev_le_seven (a b : Square) : chebyshev a b ≤ 7 := by
  have h1 := fileOf_lt a
  have h2 := fileOf_lt b
  have h3 := rankOf_lt a
  have h4 := rankOf_lt b
  simp only [chebyshev, natDist]
  omega

theorem chebyshev_eq_zero_iff {a b : Square} : chebyshev a b = 0 ↔ a = b := by
  constructor
  · intro h
    simp only [chebyshev, natDist, Nat.max_eq_zero_iff] at h
    exact sq_ext (by omega) (by omega)
  · rintro rfl
    simp [chebyshev, natDist]

theorem mem_DistanceRingBB {s t : Square} {d : Nat} :
    t ∈ DistanceRingBB s d ↔ chebyshev s t = d + 1 := by
  simp [DistanceRingBB]

theorem ringScan_finds (ksq : Square) (pawns : Bitboard) (m : Nat) (hm : 1 ≤ m)
    (hhit : (DistanceRingBB ksq (m - 1) ∩ pawns).Nonempty)
    (hmiss : ∀ j, j + 1 < m → DistanceRingBB ksq j ∩ pawns = ∅) :
    ∀ fuel i, i ≤ m - 1 → m - 1 < i + fuel → ringScan ksq pawns fuel i = some m := by
  intro fuel
  induction fuel with
  | zero =>
    intro i hi1 hi2
    omega
  | succ fuel ih =>
    intro i hi1 hi2
    by_cases hi : i = m - 1
    · subst hi
      unfold ringScan
      rw [if_pos (bbAny_eq_true.mpr hhit)]
      congr 1
      omega
    · have hlt : i + 1 < m := by omega
      have hfalse : bbAny (DistanceRingBB ksq i ∩ pawns) = false :=
        bbAny_eq_false.mpr (hmiss i hlt)
      unfold ringScan
      rw [if_neg (by simp [hfalse])]
      exact ih (i + 1) (by omega) (by omega)

theorem kingPawnMinDist_spec (pos : Pos) (us : Color) (ksq : Square)
    (h : (pieces_cp pos us).Nonempty) (hk : ksq ∉ pieces_cp pos us) :
    1 ≤ kingPawnMinDist pos us ksq ∧ kingPawnMinDist pos us ksq ≤ 7 ∧
    (DistanceRingBB ksq (kingPawnMinDist pos us ksq - 1) ∩ pieces_cp pos us).Nonempty ∧
    (∀ j, j + 1 < kingPawnMinDist pos us ksq →
      DistanceRingBB ksq j ∩ pieces_cp pos us = ∅) := by
  have hmdef : kingPawnMinDist pos us ksq =
      ((pieces_cp pos us).image (chebyshev ksq)).min' (h.image _) := by
    unfold kingPawnMinDist
    rw [dif_pos h]
  obtain ⟨p, hp, hcp⟩ : ∃ p ∈ pieces_cp pos us,
      chebyshev ksq p = kingPawnMinDist pos us ksq := by
    have hmem := Finset.min'_mem ((pieces_cp pos us).image (chebyshev ksq)) (h.image _)
    rw [← hmdef] at hmem
    simpa [Finset.mem_image] using hmem
  have hm1 : 1 ≤ kingPawnMinDist pos us ksq := by
    rcases Nat.eq_zero_or_pos (kingPawnMinDist pos us ksq) with h0 | h0
    · exfalso
      rw [h0] at hcp
      have hpe : ksq = p := chebyshev_eq_zero_iff.mp hcp
      exact hk (hpe ▸ hp)
    · exact h0
  refine ⟨hm1, ?_, ?_, ?_⟩
  · rw [← hcp]
    exact chebyshev_le_seven _ _
  · refine ⟨p, Finset.mem_inter.mpr ⟨mem_DistanceRingBB.mpr ?_, hp⟩⟩
    omega
  · intro j hj
    rw [Finset.eq_empty_iff_forall_not_mem]
    rintro t ht
    rw [Finset.mem_inter, mem_DistanceRingBB] at ht
    obtain ⟨hd, htP⟩ := ht
    have hmem := Finset.mem_image_of_mem (chebyshev ksq) htP
    rw [hd] at hmem
    have hle := Finset.min'_le _ _ hmem
    rw [← hmdef] at hle
    omega

theorem ring_scan_min (pos : Pos) (us : Color) (ksq : Square)
    (h : (pieces_cp pos us).Nonempty) (hk : ksq ∉ pieces_cp pos us) :
    ringScan ksq (pieces_cp pos us) 8 0 = some (kingPawnMinDist pos us ksq) := by
  obtain ⟨hm1, hm7, hhit, hmiss⟩ := kingPawnMinDist_spec pos us ksq h hk
  exact ringScan_finds ksq (pieces_cp pos us) (kingPawnMinDist pos us ksq)
    hm1 hhit hmiss 8 0 (by omega) (by omega)

/-! ## Claim C5 -/

/-- Claim C5: do_king_safety records the king square and the castling-rights
snapshot, returns endgame component -16 times the minimum board distance to
the nearest own pawn (0 when the side has no pawns), and midgame component the
maximum of shelter_storm at the king square and at each post-castle king
square whose right is still legal. -/
theorem c5_do_king_safety (sd : SideData) (pos : Pos) (ksq : Square) (us : Color)
    (hk : ksq ∉ pieces_cp pos us) :
    (do_king_safety sd pos ksq us).1.kingSquare = some ksq ∧
    (do_king_safety sd pos ksq us).1.castlingRights =
      (canCastleK pos us, canCastleQ pos us) ∧
    (do_king_safety sd pos ksq us).2.eg =
      -16 * (kingPawnMinDist pos us ksq : Int) ∧
    (do_king_safety sd pos ksq us).2.mg =
      ((if canCastleK pos us then
          [shelter_storm pos (relative_square us SQ_G1) us] else []) ++
       (if canCastleQ pos us then
          [shelter_storm pos (relative_square us SQ_C1) us] else [])).foldl
        max (shelter_storm pos ksq us) := by
  have hdist : kingSafetyDistance pos us ksq = kingPawnMinDist pos us ksq := by
    unfold kingSafetyDistance
    by_cases hne : (pieces_cp pos us).Nonempty
    · rw [if_pos (by simp [bbAny_eq_true, hne]), ring_scan_min pos us ksq hne hk]
      rfl
    · rw [if_neg (by simp [bbAny_eq_true, hne])]
      unfold kingPawnMinDist
      rw [dif_neg hne]
  refine ⟨rfl, rfl, ?_, ?_⟩
  · show -16 * (kingSafetyDistance pos us ksq : Int) = _
    rw [hdist]
  · rcases Bool.eq_false_or_eq_true (canCastleK pos us) with hK | hK <;>
      rcases Bool.eq_false_or_eq_true (canCastleQ pos us) with hQ | hQ <;>
        simp [do_king_safety, hK, hQ]

/-- Claim C5 (witness): the kingside-shelter fixture with the White king on e1
and only the kingside castling right available. -/
theorem c5_witness :
    (4 : Square) ∉ pieces_cp posShelter Color.white ∧
    ((do_king_safety emptySide posShelter 4 Color.white).1.kingSquare = some 4 ∧
     (do_king_safety emptySide posShelter 4 Color.white).1.castlingRights =
       (canCastleK posShelter Color.white, canCastleQ posShelter Color.white) ∧
     (do_king_safety emptySide posShelter 4 Color.white).2.eg =
       -16 * (kingPawnMinDist posShelter Color.white 4 : Int) ∧
     (do_king_safety emptySide posShelter 4 Color.white).2.mg =
       ((if canCastleK posShelter Color.white then
           [shelter_storm posShelter (relative_square Color.white SQ_G1) Color.white]
         else []) ++
        (if canCastleQ posShelter Color.white then
           [shelter_storm posShelter (relative_square Color.white SQ_C1) Color.white]
         else [])).foldl max (shelter_storm posShelter 4 Color.white)) :=
  ⟨by decide, c5_do_king_safety emptySide posShelter 4 Color.white (by decide)⟩

/-! ## Claim C10 -/

/-- Claim C10: when the side has pawns (and, the position being legal, none of
them stands on the king square) the ring scan hits a ring of index at most 6
and terminates; when the side has no pawns the scan is skipped and the
reported distance is 0. -/
theorem c10_ring_scan_bounded (pos : Pos) (us : Color) (ksq : Square)
    (hk : ksq ∉ pieces_cp pos us) :
    if pieces_cp pos us = ∅ then kingSafetyDistance pos us ksq = 0
    else (∃ d ≤ 6, (DistanceRingBB ksq d ∩ pieces_cp pos us).Nonempty) ∧
      ringScan ksq (pieces_cp pos us) 8 0 ≠ none := by
  by_cases he : pieces_cp pos us = ∅
  · rw [if_pos he]
    unfold kingSafetyDistance
    rw [if_neg (by simp [bbAny_eq_true, he])]
  · rw [if_neg he]
    have hne : (pieces_cp pos us).Nonempty := Finset.nonempty_iff_ne_empty.mpr he
    obtain ⟨hm1, hm7, hhit, hmiss⟩ := kingPawnMinDist_spec pos us ksq hne hk
    refine ⟨⟨kingPawnMinDist pos us ksq - 1, by omega, hhit⟩, ?_⟩
    rw [ring_scan_min pos us ksq hne hk]
    simp

/-- Claim C10 (witness): the kingside-shelter fixture with the White king on
e1; the side has pawns, so the scan branch of the statement applies. -/
theorem c10_witness :
    (4 : Square) ∉ pieces_cp posShelter Color.white ∧
    (if pieces_cp posShelter Color.white = ∅ then
      kingSafetyDistance posShelter Color.white 4 = 0
    else (∃ d ≤ 6,
        (DistanceRingBB 4 d ∩ pieces_cp posShelter Color.white).Nonempty) ∧
      ringScan 4 (pieces_cp posShelter Color.white) 8 0 ≠ none) :=
  ⟨by decide, c10_ring_scan_bounded posShelter Color.white 4 (by decide)⟩

/-! ## Claim C6 -/

theorem mem_region {us : Color} {ksq t : Square} :
    t ∈ in_front_bb us (rankOf ksq) ∪ rank_bb_s ksq ↔
      relative_rank_s us ksq ≤ relative_rank_s us t := by
  have hb1 := rankOf_lt t
  have hb2 := rankOf_lt ksq
  cases us <;>
    (simp only [Finset.mem_union, in_front_bb, rank_bb_s, rank_bb, Finset.mem_filter,
      Finset.mem_univ, true_and, relative_rank_s, relative_rank]
     omega)

theorem filePenalty_eq_spec (ourP theirP : Bitboard) (ksq : Square) (us : Color)
    (f : Nat)
    (hA : ∀ t ∈ ourP, relative_rank_s us t ≠ 0)
    (hB : ∀ t ∈ theirP, relative_rank_s us ksq ≤ relative_rank_s us t)
    (hC : ksq ∉ theirP) :
    filePenalty ourP theirP ksq us f = specFilePenalty ourP theirP ksq us f := by
  have hNFP : ((if (ourP ∩ file_bb f).Nonempty then
      relative_rank_s us (backmost_sq us (ourP ∩ file_bb f)) else 0) = 0) ↔
      (ourP ∩ file_bb f = ∅) := by
    by_cases hne : (ourP ∩ file_bb f).Nonempty
    · rw [if_pos hne]
      constructor
      · intro h0
        exact absurd h0
          (hA _ (Finset.mem_of_mem_inter_left (backmost_sq_mem us hne)))
      · intro h0
        rw [h0] at hne
        simp at hne
    · rw [if_neg hne]
      simp [Finset.not_nonempty_iff_eq_empty.mp hne]
  have hBBK : (f = fileOf ksq ∧
      (if (theirP ∩ file_bb f).Nonempty then
        relative_rank_s us (frontmost_sq (Color.other us) (theirP ∩ file_bb f))
      else 0) = relative_rank_s us ksq + 1) ↔
      (f = fileOf ksq ∧ ∃ t ∈ theirP ∩ file_bb f,
        relative_rank_s us t = relative_rank_s us ksq + 1) := by
    constructor
    · rintro ⟨hf, hrk⟩
      refine ⟨hf, ?_⟩
      by_cases hne : (theirP ∩ file_bb f).Nonempty
      · rw [if_pos hne] at hrk
        exact ⟨frontmost_sq (Color.other us) (theirP ∩ file_bb f),
          frontmost_other_mem us hne, hrk⟩
      · rw [if_neg hne] at hrk
        omega
    · rintro ⟨hf, t, htmem, htr⟩
      have hne : (theirP ∩ file_bb f).Nonempty := ⟨t, htmem⟩
      refine ⟨hf, ?_⟩
      rw [if_pos hne]
      have hfm := frontmost_other_mem us hne
      have hle : relative_rank_s us (frontmost_sq (Color.other us) (theirP ∩ file_bb f)) ≤
          relative_rank_s us t := frontmost_other_least us hne t htmem
      have hget : relative_rank_s us ksq ≤
          relative_rank_s us (frontmost_sq (Color.other us) (theirP ∩ file_bb f)) :=
        hB _ (Finset.mem_of_mem_inter_left hfm)
      have hnk : relative_rank_s us (frontmost_sq (Color.other us) (theirP ∩ file_bb f)) ≠
          relative_rank_s us ksq := by
        intro heq
        have hfile : fileOf (frontmost_sq (Color.other us) (theirP ∩ file_bb f)) =
            fileOf ksq := by
          have := Finset.mem_of_mem_inter_right hfm
          rw [mem_file_bb] at this
          rw [this, hf]
        have hrank : rankOf (frontmost_sq (Color.other us) (theirP ∩ file_bb f)) =
            rankOf ksq :=
          relative_rank_inj (rankOf_lt _) (rankOf_lt _) heq
        have : frontmost_sq (Color.other us) (theirP ∩ file_bb f) = ksq :=
          sq_ext hfile hrank
        exact hC (this ▸ Finset.mem_of_mem_inter_left hfm)
      omega
  simp only [filePenalty, specFilePenalty, hNFP, hBBK]

/-- Claim C6: under the legality facts that the own pawns never stand on the
own back rank and that no enemy pawn occupies the king square, shelter_storm
equals the specification formula — exactly the three files centered on the
clamped king file, the block state chosen by the first matching case in the
order BlockedByKing, NoFriendlyPawn, BlockedByPawn, Unblocked over the pawns
under consideration, and the maximum safety constant minus the sum of the
ShelterWeakness and StormDanger terms of those three files. -/
theorem c6_shelter_storm_spec (pos : Pos) (ksq : Square) (us : Color)
    (h1 : ∀ s ∈ pieces_cp pos us, relative_rank_s us s ≠ 0)
    (h2 : ksq ∉ pieces_cp pos (Color.other us)) :
    shelter_storm pos ksq us = specShelterStorm pos ksq us := by
  simp only [shelter_storm, specShelterStorm, shelterCore]
  have hA : ∀ t ∈ (pieces_p pos ∩ (in_front_bb us (rankOf ksq) ∪ rank_bb_s ksq)) ∩
      pieces_cp pos us, relative_rank_s us t ≠ 0 :=
    fun t ht => h1 t (Finset.mem_of_mem_inter_right ht)
  have hB : ∀ t ∈ (pieces_p pos ∩ (in_front_bb us (rankOf ksq) ∪ rank_bb_s ksq)) ∩
      pieces_cp pos (Color.other us),
      relative_rank_s us ksq ≤ relative_rank_s us t := by
    intro t ht
    have hb := Finset.mem_of_mem_inter_right (Finset.mem_of_mem_inter_left ht)
    exact mem_region.mp hb
  have hC : ksq ∉ (pieces_p pos ∩ (in_front_bb us (rankOf ksq) ∪ rank_bb_s ksq)) ∩
      pieces_cp pos (Color.other us) :=
    fun hx => h2 (Finset.mem_of_mem_inter_right hx)
  have e1 := filePenalty_eq_spec _ _ ksq us (max 1 (min 6 (fileOf ksq)) - 1) hA hB hC
  have e2 := filePenalty_eq_spec _ _ ksq us (max 1 (min 6 (fileOf ksq))) hA hB hC
  have e3 := filePenalty_eq_spec _ _ ksq us (max 1 (min 6 (fileOf ksq)) + 1) hA hB hC
  simp only [List.foldl_cons, List.foldl_nil]
  rw [e1, e2, e3]
  ring

/-- Claim C6 (witness): the kingside-shelter fixture with the White king on g1;
both legality hypotheses hold and both formulations agree. -/
theorem c6_witness :
    (∀ s ∈ pieces_cp posShelter Color.white, relative_rank_s Color.white s ≠ 0) ∧
    (6 : Square) ∉ pieces_cp posShelter (Color.other Color.white) ∧
    shelter_storm posShelter 6 Color.white = specShelterStorm posShelter 6 Color.white :=
  ⟨by decide, by decide,
    c6_shelter_storm_spec posShelter 6 Color.white (by decide) (by decide)⟩

end Pawns
